import Mathlib

/-!
Verification of the classification core in `preprocessing.py`
(text normalization, rule compilation, merchant-key classification).

The embedding works over `List Char` / `String`.  Python regular-expression
substitutions used by `normalize_text` are all of the form
`re.sub(r"‹class›+", " ", s)` (replace each maximal run of a character class
by one space), modelled by `subRuns`.  The `unidecode` library is modelled by
`unidecodeChar` (identity on ASCII, a table for common Latin accents, empty
for other code points).  Compiled `re.Pattern` values are modelled by the
inductive `Matcher`; the semantics of the `re:` power-user escape hatch is an
uninterpreted parameter `rx` threaded through `Matcher.search`, so every
theorem below holds for an arbitrary regex engine.
-/

/-- Python's `\s` class restricted to ASCII: space, tab, newline, carriage
return, vertical tab, form feed (codes 32, 9, 10, 13, 11, 12). -/
def isPySpace (c : Char) : Bool :=
  decide (c.toNat = 32 ∨ c.toNat = 9 ∨ c.toNat = 10 ∨ c.toNat = 13 ∨
    c.toNat = 11 ∨ c.toNat = 12)

/-- The class `[a-z]` (codes 97–122). -/
def isLowerAlpha (c : Char) : Bool :=
  decide (97 ≤ c.toNat ∧ c.toNat ≤ 122)

/-- The class `\d` restricted to ASCII digits `[0-9]` (codes 48–57). -/
def isAsciiDigit (c : Char) : Bool :=
  decide (48 ≤ c.toNat ∧ c.toNat ≤ 57)

/-- Code points of the punctuation class `[*_\-\/\\|:;.,(){}\[\]<>]` from
`normalize_text` (`*`=42, `_`=95, `-`=45, `/`=47, `\`=92, `|`=124, `:`=58,
`;`=59, `.`=46, `,`=44, `(`=40, `)`=41, braces 123/125, `[`=91, `]`=93,
`<`=60, `>`=62). -/
def punctCodes : List Nat :=
  [42, 95, 45, 47, 92, 124, 58, 59, 46, 44, 40, 41, 123, 125, 91, 93, 60, 62]

/-- The punctuation character class of `normalize_text`. -/
def isPunctChar (c : Char) : Bool :=
  decide (c.toNat ∈ punctCodes)

/-- Python `str.lower()` restricted to ASCII `A-Z` and the Latin-1 uppercase
letters `À`–`Þ` (codes 192–222, excluding `×` = 215), all of which lower by
adding 32.  Identity elsewhere. -/
def pyLowerChar (c : Char) : Char :=
  if (65 ≤ c.toNat ∧ c.toNat ≤ 90) ∨
     (192 ≤ c.toNat ∧ c.toNat ≤ 222 ∧ c.toNat ≠ 215) then
    Char.ofNat (c.toNat + 32)
  else c

/-- The `unidecode` library, modelled as: identity on ASCII (code ≤ 127), a
table of common lowercase Latin accented letters, and the empty string for
any other code point (as `unidecode` yields for unknown characters). -/
def unidecodeChar (c : Char) : List Char :=
  if c.toNat ≤ 127 then [c]
  else match c with
    | 'à' => ['a'] | 'á' => ['a'] | 'â' => ['a'] | 'ã' => ['a'] | 'ä' => ['a']
    | 'å' => ['a'] | 'ç' => ['c'] | 'è' => ['e'] | 'é' => ['e'] | 'ê' => ['e']
    | 'ë' => ['e'] | 'ì' => ['i'] | 'í' => ['i'] | 'î' => ['i'] | 'ï' => ['i']
    | 'ñ' => ['n'] | 'ò' => ['o'] | 'ó' => ['o'] | 'ô' => ['o'] | 'õ' => ['o']
    | 'ö' => ['o'] | 'ù' => ['u'] | 'ú' => ['u'] | 'û' => ['u'] | 'ü' => ['u']
    | 'ý' => ['y'] | 'ÿ' => ['y']
    | _ => []

/-- Worker for `subRuns`.  The flag records whether we are inside a run of
characters satisfying `p` whose replacement space has already been output. -/
def subRunsAux (p : Char → Bool) : Bool → List Char → List Char
  | _, [] => []
  | inRun, c :: cs =>
    if p c then
      if inRun then subRunsAux p true cs
      else ' ' :: subRunsAux p true cs
    else c :: subRunsAux p false cs

/-- `re.sub(r"‹p›+", " ", s)`: replace each maximal run of characters
satisfying `p` by a single space. -/
def subRuns (p : Char → Bool) (l : List Char) : List Char :=
  subRunsAux p false l

/-- Python `str.strip()` over the ASCII whitespace class. -/
def pyStripList (l : List Char) : List Char :=
  (((l.dropWhile isPySpace).reverse.dropWhile isPySpace)).reverse

/-- `str.strip()` on strings. -/
def pyStrip (s : String) : String :=
  String.mk (pyStripList s.data)

/-- `str.lower()` on strings. -/
def pyLower (s : String) : String :=
  String.mk (s.data.map pyLowerChar)

/-- The three middle substitutions of `normalize_text`: punctuation runs,
digit runs and runs of characters outside `[a-z\s]`, each replaced by one
space (source lines `re.sub(r"[*_\-\/\\|:;.,(){}\[\]<>]+", " ", s)`,
`re.sub(r"\d+", " ", s)`, `re.sub(r"[^a-z\s]+", " ", s)`). -/
def scrubStages (l : List Char) : List Char :=
  subRuns (fun c => !(isLowerAlpha c || isPySpace c))
    (subRuns isAsciiDigit (subRuns isPunctChar l))

/-- `normalize_text` from `preprocessing.py` at the character-list level:
strip, lowercase, unidecode, the three scrub substitutions, whitespace-run
collapse, and a final strip. -/
def normalizeList (l : List Char) : List Char :=
  pyStripList (subRuns isPySpace
    (scrubStages ((((pyStripList l).map pyLowerChar).map unidecodeChar).flatten)))

/-- `normalize_text` from `preprocessing.py`.  (The Python function also
maps `None` to `""`; the embedding's input is always a string.) -/
def normalize_text (text : String) : String :=
  String.mk (normalizeList text.data)

/-- Caseless equality of character lists, modelling `re.IGNORECASE`. -/
def caselessEq (a b : List Char) : Bool :=
  a.map pyLowerChar == b.map pyLowerChar

/-- Does the literal `lit` occur in `key` at position `i`, immediately
preceded by start-of-string or whitespace and immediately followed by
whitespace or end-of-string?  This is one candidate match of the compiled
regex `(^|\s){re.escape(lit)}(\s|$)`. -/
def litMatchAt (lit key : List Char) (i : Nat) : Bool :=
  caselessEq ((key.drop i).take lit.length) lit &&
  (i == 0 || isPySpace (key.getD (i - 1) 'a')) &&
  (key.length == i + lit.length || isPySpace (key.getD (i + lit.length) 'a'))

/-- Boolean search semantics of the compiled literal regex
`(^|\s){re.escape(lit)}(\s|$)` with `re.IGNORECASE` (`re.Pattern.search`:
a match at any position). -/
def litSearch (lit key : List Char) : Bool :=
  (List.range (key.length + 1)).any (litMatchAt lit key)

/-- A compiled `re.Pattern` as produced by `_compile_rule`:
`dead` is `re.compile(r"a^")` (an `a` before position 0 — never matches);
`regex src` is the `re:` escape hatch `re.compile(src, re.IGNORECASE)`;
`literal lit` is `re.compile(rf"(^|\s){re.escape(lit)}(\s|$)", re.IGNORECASE)`
for the lowercased literal `lit`. -/
inductive Matcher where
  | dead : Matcher
  | regex (src : String) : Matcher
  | literal (lit : String) : Matcher
deriving DecidableEq

/-- `pattern.search(key)` as a boolean.  The semantics of full regular
expressions (`re:` patterns) is the uninterpreted parameter `rx`. -/
def Matcher.search (rx : String → String → Bool) : Matcher → String → Bool
  | .dead, _ => false
  | .regex src, key => rx src key
  | .literal lit, key => litSearch lit.data key.data

/-- Does the stripped pattern start with the (case-insensitive) prefix
`re:`?  Models `p.lower().startswith("re:")`. -/
def startsWithRe (p : String) : Bool :=
  match (pyLower p).data with
  | 'r' :: 'e' :: ':' :: _ => true
  | _ => false

/-- `_compile_rule` from `preprocessing.py`.  Caveat: Python's `re.compile`
raises `re.error` when the remainder of a `re:` pattern is not a valid
regular expression (the spec's other `ConfigError`); the embedding's
`Matcher.regex` constructor accepts any source string, so that error path
is not modelled here, and no theorem below asserts that compiling a `re:`
pattern (or a configuration containing one) succeeds. -/
def _compile_rule (pattern_raw : String) : Matcher :=
  let p := pyStrip pattern_raw
  if p = "" then .dead
  else if startsWithRe p then .regex (pyStrip (String.mk (p.data.drop 3)))
  else .literal (pyLower p)

/-- The `Rule` dataclass from `preprocessing.py`. -/
structure Rule where
  pattern_raw : String
  pattern : Matcher
  categoria : String
  subcategoria : String
  prioridade : Int
  ativo : Bool
deriving DecidableEq

/-- A configuration row: column name ↦ cell text.  The app feeds string
cells (CSV / Google-Sheets sourced); default cells injected by
`compile_config` (`100`, `True`) are represented by their `str()` images. -/
abbrev ConfigRow : Type := List (String × String)

/-- A configuration table (models the `df_config` DataFrame): its column
names and its rows. -/
structure ConfigTable where
  columns : List String
  rows : List ConfigRow

/-- `row.get(col, dflt)`. -/
def getCell (row : ConfigRow) (col : String) (dflt : String) : String :=
  match row.lookup col with
  | some v => v
  | none => dflt

/-- `pd.to_numeric(s, errors="coerce")` restricted to integer literals
(optional sign, decimal digits, surrounding whitespace); `none` models
`NaN`. -/
def parseIntCell (s : String) : Option Int :=
  let digits : List Char → Option Int := fun ds =>
    if ds ≠ [] ∧ ds.all isAsciiDigit then
      some (Int.ofNat (ds.foldl (fun a c => a * 10 + (c.toNat - 48)) 0))
    else none
  match pyStripList s.data with
  | [] => none
  | '-' :: ds => (digits ds).map (fun n => -n)
  | '+' :: ds => digits ds
  | ds => digits ds

/-- The `ativo` flag values treated as false (after strip + lower):
`{"false", "0", "nao", "não"}`. -/
def falseFlags : List String := ["false", "0", "nao", "não"]

/-- Build one `Rule` from a configuration row (the loop body of
`compile_config`).  When the `prioridade` / `ativo` column is absent the
code first adds it with value `100` / `True`; `str()` of those defaults is
`"100"` / `"True"`. -/
def buildRule (cols : List String) (row : ConfigRow) : Rule :=
  let ativoStr := if cols.contains "ativo" then getCell row "ativo" "True" else "True"
  let ativo := !(falseFlags.contains (pyLower (pyStrip ativoStr)))
  let prioStr := if cols.contains "prioridade" then getCell row "prioridade" "100" else "100"
  let prio := (parseIntCell prioStr).getD 100
  let pat_raw := pyStrip (getCell row "pattern" "")
  { pattern_raw := pat_raw
    pattern := _compile_rule pat_raw
    categoria := pyStrip (getCell row "categoria" "")
    subcategoria := pyStrip (getCell row "subcategoria" "")
    prioridade := prio
    ativo := ativo }

/-- The sort order of `rules.sort(key=lambda r: (r.prioridade,
-len(r.pattern_raw)))`: ascending priority, ties by descending raw-pattern
length. -/
def ruleLE (a b : Rule) : Prop :=
  a.prioridade < b.prioridade ∨
    (a.prioridade = b.prioridade ∧ b.pattern_raw.length ≤ a.pattern_raw.length)

instance : DecidableRel ruleLE := fun a b => by
  unfold ruleLE; exact inferInstance

instance : IsTotal Rule ruleLE :=
  ⟨by intro a b; unfold ruleLE; omega⟩

instance : IsTrans Rule ruleLE :=
  ⟨by intro a b c; unfold ruleLE; omega⟩

/-- The required configuration columns checked by `compile_config`. -/
def requiredCols : List String := ["pattern", "categoria", "subcategoria"]

/-- `compile_config` from `preprocessing.py`.  An empty table compiles to no
rules; a non-empty table missing a required column raises `ValueError`
(modelled by `Except.error` with the source's message); otherwise every row
is compiled and the list is sorted by `(prioridade, -len(pattern_raw))`
with Python's stable `list.sort`, modelled by insertion sort over the
non-strict total preorder `ruleLE` (the unique stable sort for that key). -/
def compile_config (t : ConfigTable) : Except String (List Rule) :=
  if t.rows.isEmpty then .ok []
  else
    match requiredCols.find? (fun c => !(t.columns.contains c)) with
    | some c => .error ("Config precisa ter coluna '" ++ c ++ "'")
    | none => .ok (List.insertionSort ruleLE (t.rows.map (buildRule t.columns)))

/-- The loop of `classify_merchant_key`: skip inactive rules, return the
first rule whose matcher succeeds, tagged `"regex_config"`; fall through to
the unclassified triple. -/
def classifyLoop (rx : String → String → Bool) (mk : String) :
    List Rule → String × String × String
  | [] => ("Não classificado", "", "nao_classificado")
  | r :: rs =>
    if r.ativo && Matcher.search rx r.pattern mk then
      (r.categoria, r.subcategoria, "regex_config")
    else classifyLoop rx mk rs

/-- `classify_merchant_key` from `preprocessing.py`. -/
def classify_merchant_key (rx : String → String → Bool)
    (merchant_key : String) (rules : List Rule) : String × String × String :=
  let mk := normalize_text merchant_key
  if mk = "" then ("Não classificado", "", "nao_classificado")
  else classifyLoop rx mk rules

/-- The first active rule whose matcher succeeds on `mk`. -/
def firstMatch (rx : String → String → Bool) (mk : String)
    (rules : List Rule) : Option Rule :=
  rules.find? (fun r => r.ativo && Matcher.search rx r.pattern mk)

/-- The sort key of a compiled rule: `(prioridade, len(pattern_raw))`. -/
def ruleKey (r : Rule) : Int × Nat :=
  (r.prioridade, r.pattern_raw.length)

/-- A regex oracle that never matches (used to instantiate theorems at
concrete inputs that involve no `re:` rule). -/
def rxNone : String → String → Bool := fun _ _ => false

/-- The spec's characterization of literal whole-word matching: the pattern
occurs in the key (case-insensitively) immediately preceded by
start-of-string or whitespace and immediately followed by whitespace or
end-of-string. -/
def wordBoundaryOccurs (pat key : List Char) : Prop :=
  ∃ i, i + pat.length ≤ key.length ∧
    ((key.drop i).take pat.length).map pyLowerChar = pat.map pyLowerChar ∧
    (i = 0 ∨ isPySpace (key.getD (i - 1) 'a') = true) ∧
    (i + pat.length = key.length ∨ isPySpace (key.getD (i + pat.length) 'a') = true)

/-! ### Unfolding lemmas for `subRunsAux` -/

theorem subRunsAux_nil {p : Char → Bool} {b : Bool} : subRunsAux p b [] = [] := rfl

theorem subRunsAux_cons_pos_t {p : Char → Bool} {c : Char} {cs : List Char}
    (h : p c = true) : subRunsAux p true (c :: cs) = subRunsAux p true cs := by
  simp [subRunsAux, h]

theorem subRunsAux_cons_pos_f {p : Char → Bool} {c : Char} {cs : List Char}
    (h : p c = true) :
    subRunsAux p false (c :: cs) = ' ' :: subRunsAux p true cs := by
  simp [subRunsAux, h]

theorem subRunsAux_cons_neg {p : Char → Bool} {c : Char} {cs : List Char}
    {b : Bool} (h : p c = false) :
    subRunsAux p b (c :: cs) = c :: subRunsAux p false cs := by
  simp [subRunsAux, h]

/-! ### Helper lemmas about `subRuns` -/

/-- Every character of `subRunsAux p b l` is the replacement space or a
character of `l` not satisfying `p`. -/
theorem mem_subRunsAux {p : Char → Bool} {c : Char} :
    ∀ {b : Bool} {l : List Char}, c ∈ subRunsAux p b l →
      c = ' ' ∨ (c ∈ l ∧ p c = false) := by
  intro b l
  induction l generalizing b with
  | nil => simp [subRunsAux_nil]
  | cons d ds ih =>
    intro h
    by_cases hd : p d
    · cases b with
      | true =>
        rw [subRunsAux_cons_pos_t hd] at h
        rcases ih h with h' | ⟨hm, hp⟩
        · exact Or.inl h'
        · exact Or.inr ⟨List.mem_cons_of_mem _ hm, hp⟩
      | false =>
        rw [subRunsAux_cons_pos_f hd] at h
        rcases List.mem_cons.mp h with rfl | h'
        · exact Or.inl rfl
        · rcases ih h' with h'' | ⟨hm, hp⟩
          · exact Or.inl h''
          · exact Or.inr ⟨List.mem_cons_of_mem _ hm, hp⟩
    · rw [subRunsAux_cons_neg (by simpa using hd)] at h
      rcases List.mem_cons.mp h with rfl | h'
      · exact Or.inr ⟨List.mem_cons_self _ _, by simpa using hd⟩
      · rcases ih h' with h'' | ⟨hm, hp⟩
        · exact Or.inl h''
        · exact Or.inr ⟨List.mem_cons_of_mem _ hm, hp⟩

/-- Started inside a run, the next emitted character does not satisfy `p`. -/
theorem head?_subRunsAux_true {p : Char → Bool} :
    ∀ {l : List Char} {c : Char}, (subRunsAux p true l).head? = some c →
      p c = false := by
  intro l
  induction l with
  | nil => simp [subRunsAux_nil]
  | cons d ds ih =>
    intro c h
    by_cases hd : p d
    · rw [subRunsAux_cons_pos_t hd] at h
      exact ih h
    · rw [subRunsAux_cons_neg (by simpa using hd)] at h
      simp only [List.head?_cons, Option.some_inj] at h
      subst h; simpa using hd

/-- No two adjacent characters of `subRunsAux p b l` both satisfy `p`. -/
theorem chain'_subRunsAux {p : Char → Bool} :
    ∀ {l : List Char} {b : Bool},
      List.Chain' (fun a c => ¬(p a = true ∧ p c = true)) (subRunsAux p b l) := by
  intro l
  induction l with
  | nil => intro b; simp [subRunsAux_nil]
  | cons d ds ih =>
    intro b
    by_cases hd : p d
    · cases b with
      | true => rw [subRunsAux_cons_pos_t hd]; exact ih
      | false =>
        rw [subRunsAux_cons_pos_f hd]
        refine List.chain'_cons'.mpr ⟨?_, ih⟩
        intro c hc
        have := head?_subRunsAux_true hc
        simp [this]
    · rw [subRunsAux_cons_neg (by simpa using hd)]
      refine List.chain'_cons'.mpr ⟨?_, ih⟩
      intro c _
      simp [hd]

/-- If no character of `l` satisfies `p`, the substitution is the
identity. -/
theorem subRunsAux_id {p : Char → Bool} :
    ∀ {l : List Char} {b : Bool}, (∀ c ∈ l, p c = false) →
      subRunsAux p b l = l := by
  intro l
  induction l with
  | nil => intro b _; rfl
  | cons d ds ih =>
    intro b h
    have hd : p d = false := h d (List.mem_cons_self _ _)
    rw [subRunsAux_cons_neg hd]
    exact congrArg (d :: ·) (ih fun c hc => h c (List.mem_cons_of_mem _ hc))

/-- On a list where every `p`-character is the space character and no two
adjacent characters satisfy `p`, the substitution is the identity (each run
has length one and is replaced by itself). -/
theorem subRunsAux_fixed {p : Char → Bool} :
    ∀ {l : List Char} {b : Bool},
      (∀ c ∈ l, p c = true → c = ' ') →
      List.Chain' (fun a c => ¬(p a = true ∧ p c = true)) l →
      (b = true → ∀ c, l.head? = some c → p c = false) →
      subRunsAux p b l = l := by
  intro l
  induction l with
  | nil => intro b _ _ _; rfl
  | cons d ds ih =>
    intro b hsp hch hb
    by_cases hd : p d
    · cases b with
      | true =>
        have := hb rfl d (by simp)
        simp [hd] at this
      | false =>
        have hd' : d = ' ' := hsp d (List.mem_cons_self _ _) hd
        rw [subRunsAux_cons_pos_f hd, hd']
        refine congrArg (' ' :: ·) ?_
        refine ih (fun c hc hp => hsp c (List.mem_cons_of_mem _ hc) hp)
          (List.chain'_cons'.mp hch).2 ?_
        intro _ c hc
        have := (List.chain'_cons'.mp hch).1 c hc
        by_cases h' : p c = true
        · exact absurd ⟨hd, h'⟩ this
        · simpa using h'
    · rw [subRunsAux_cons_neg (by simpa using hd)]
      refine congrArg (d :: ·) ?_
      exact ih (fun c hc hp => hsp c (List.mem_cons_of_mem _ hc) hp)
        (List.chain'_cons'.mp hch).2 (by simp)

/-! ### Helper lemmas about `pyStripList` -/

theorem dropWhile_id {p : Char → Bool} {l : List Char}
    (h : ∀ c, l.head? = some c → p c = false) : l.dropWhile p = l := by
  cases l with
  | nil => rfl
  | cons d ds =>
    have := h d (by simp)
    simp [List.dropWhile_cons, this]

/-- The stripped list is a prefix of the front-stripped list. -/
theorem pyStripList_front (l : List Char) :
    pyStripList l <+: l.dropWhile isPySpace := by
  unfold pyStripList
  have h2 := List.IsSuffix.reverse
    (List.dropWhile_suffix (l := (l.dropWhile isPySpace).reverse) isPySpace)
  simpa using h2

/-- Characters of the stripped list come from the original list. -/
theorem mem_pyStripList {c : Char} {l : List Char} (h : c ∈ pyStripList l) :
    c ∈ l := by
  have h1 := (pyStripList_front l).subset h
  exact (List.dropWhile_suffix isPySpace).subset h1

/-- Stripping preserves the no-two-adjacent property (for a symmetric
relation). -/
theorem chain'_pyStripList {R : Char → Char → Prop} {l : List Char}
    (hsymm : ∀ a b, R a b → R b a) (h : List.Chain' R l) :
    List.Chain' R (pyStripList l) := by
  unfold pyStripList
  have h1 : List.Chain' R (l.dropWhile isPySpace) :=
    h.suffix (List.dropWhile_suffix isPySpace)
  have h1' : List.Chain' (flip R) (l.dropWhile isPySpace) :=
    h1.imp (fun {a b} hab => hsymm a b hab)
  have h2 : List.Chain' R (l.dropWhile isPySpace).reverse :=
    List.chain'_reverse.mpr h1'
  have h3 : List.Chain' R ((l.dropWhile isPySpace).reverse.dropWhile isPySpace) :=
    h2.suffix (List.dropWhile_suffix isPySpace)
  have h3' : List.Chain' (flip R) ((l.dropWhile isPySpace).reverse.dropWhile isPySpace) :=
    h3.imp (fun {a b} hab => hsymm a b hab)
  exact List.chain'_reverse.mpr h3'

/-- The head of the stripped list is not whitespace. -/
theorem head?_pyStripList {l : List Char} {c : Char}
    (h : (pyStripList l).head? = some c) : isPySpace c = false := by
  obtain ⟨t, ht⟩ := pyStripList_front l
  have hm : (l.dropWhile isPySpace).head? = some c := by
    rw [← ht]
    cases hx : pyStripList l with
    | nil => rw [hx] at h; simp at h
    | cons x xs =>
      rw [hx] at h
      simp only [List.head?_cons, Option.some_inj] at h
      subst h
      simp [hx]
  have := List.head?_dropWhile_not isPySpace l
  rw [hm] at this
  simpa using this

/-- The last character of the stripped list is not whitespace. -/
theorem getLast?_pyStripList {l : List Char} {c : Char}
    (h : (pyStripList l).getLast? = some c) : isPySpace c = false := by
  unfold pyStripList at h
  rw [List.getLast?_reverse] at h
  have := List.head?_dropWhile_not isPySpace (l.dropWhile isPySpace).reverse
  rw [h] at this
  simpa using this

/-- Stripping a list whose ends are not whitespace is the identity. -/
theorem pyStripList_id {l : List Char}
    (hh : ∀ c, l.head? = some c → isPySpace c = false)
    (hl : ∀ c, l.getLast? = some c → isPySpace c = false) :
    pyStripList l = l := by
  unfold pyStripList
  rw [dropWhile_id hh]
  rw [dropWhile_id ?_, List.reverse_reverse]
  intro c hc
  rw [List.head?_reverse] at hc
  exact hl c hc

/-! ### Character-class facts -/

theorem isLowerAlpha_toNat {c : Char} (h : isLowerAlpha c = true) :
    97 ≤ c.toNat ∧ c.toNat ≤ 122 := by
  simpa [isLowerAlpha] using h

theorem az_not_pySpace {c : Char} (h : isLowerAlpha c = true) :
    isPySpace c = false := by
  have := isLowerAlpha_toNat h
  simp only [isPySpace, decide_eq_false_iff_not]
  omega

theorem space_pySpace : isPySpace ' ' = true := by decide

/-- ASCII lowercase letters and the space are fixed by `pyLowerChar`. -/
theorem pyLowerChar_fixed {c : Char} (h : isLowerAlpha c = true ∨ c = ' ') :
    pyLowerChar c = c := by
  rcases h with h | rfl
  · have := isLowerAlpha_toNat h
    have hcond : ¬((65 ≤ c.toNat ∧ c.toNat ≤ 90) ∨
        (192 ≤ c.toNat ∧ c.toNat ≤ 222 ∧ c.toNat ≠ 215)) := by omega
    simp [pyLowerChar, hcond]
  · decide

/-- ASCII lowercase letters and the space are fixed by `unidecodeChar`. -/
theorem unidecodeChar_fixed {c : Char} (h : isLowerAlpha c = true ∨ c = ' ') :
    unidecodeChar c = [c] := by
  rcases h with h | rfl
  · have := isLowerAlpha_toNat h
    unfold unidecodeChar
    rw [if_pos (by omega)]
  · decide

theorem isPunctChar_az_space {c : Char} (h : isLowerAlpha c = true ∨ c = ' ') :
    isPunctChar c = false := by
  rcases h with h | rfl
  · have := isLowerAlpha_toNat h
    simp only [isPunctChar, punctCodes, decide_eq_false_iff_not, List.mem_cons,
      List.not_mem_nil, or_false]
    omega
  · decide

theorem isAsciiDigit_az_space {c : Char} (h : isLowerAlpha c = true ∨ c = ' ') :
    isAsciiDigit c = false := by
  rcases h with h | rfl
  · have := isLowerAlpha_toNat h
    simp only [isAsciiDigit, decide_eq_false_iff_not]
    omega
  · decide

theorem scrubPred_az_space {c : Char} (h : isLowerAlpha c = true ∨ c = ' ') :
    (!(isLowerAlpha c || isPySpace c)) = false := by
  rcases h with h | rfl
  · simp [h]
  · simp [space_pySpace]

/-! ### The canonical form produced by normalization -/

/-- The canonical shape of normalized text: only lowercase ASCII letters and
single separating spaces, with no leading or trailing space. -/
def canonical (l : List Char) : Prop :=
  (∀ c ∈ l, isLowerAlpha c = true ∨ c = ' ') ∧
  List.Chain' (fun a b => ¬(isPySpace a = true ∧ isPySpace b = true)) l ∧
  (∀ c, l.head? = some c → isPySpace c = false) ∧
  (∀ c, l.getLast? = some c → isPySpace c = false)

/-- The output of `normalizeList` is canonical, whatever the input. -/
theorem normalizeList_canonical (l : List Char) : canonical (normalizeList l) := by
  unfold normalizeList
  refine ⟨?_, ?_, ?_, ?_⟩
  · intro c hc
    have hc5 := mem_pyStripList hc
    rcases mem_subRunsAux hc5 with h | ⟨hmem, hsp⟩
    · exact Or.inr h
    · unfold scrubStages at hmem
      rcases mem_subRunsAux hmem with h | ⟨_, hq⟩
      · subst h
        simp [isPySpace] at hsp
      · simp only [Bool.not_eq_false', Bool.or_eq_true] at hq
        rcases hq with h | h
        · exact Or.inl h
        · rw [h] at hsp; cases hsp
  · exact chain'_pyStripList (fun a b hab ⟨h1, h2⟩ => hab ⟨h2, h1⟩) chain'_subRunsAux
  · intro c hc; exact head?_pyStripList hc
  · intro c hc; exact getLast?_pyStripList hc

theorem map_eq_self {f : Char → Char} {l : List Char}
    (h : ∀ c ∈ l, f c = c) : l.map f = l := by
  induction l with
  | nil => rfl
  | cons d ds ih =>
    rw [List.map_cons, h d (List.mem_cons_self _ _),
      ih fun c hc => h c (List.mem_cons_of_mem _ hc)]

theorem flatten_map_eq_self {f : Char → List Char} {l : List Char}
    (h : ∀ c ∈ l, f c = [c]) : (l.map f).flatten = l := by
  induction l with
  | nil => rfl
  | cons d ds ih =>
    rw [List.map_cons, List.flatten_cons, h d (List.mem_cons_self _ _),
      ih fun c hc => h c (List.mem_cons_of_mem _ hc)]
    rfl

/-- Normalization fixes canonical lists. -/
theorem normalizeList_fixed {l : List Char} (h : canonical l) :
    normalizeList l = l := by
  obtain ⟨hc, hch, hh, hl⟩ := h
  have hstrip : pyStripList l = l := pyStripList_id hh hl
  unfold normalizeList
  rw [hstrip, map_eq_self (fun c hc' => pyLowerChar_fixed (hc c hc')),
    flatten_map_eq_self (fun c hc' => unidecodeChar_fixed (hc c hc'))]
  unfold scrubStages subRuns
  rw [subRunsAux_id (fun c hc' => isPunctChar_az_space (hc c hc')),
    subRunsAux_id (fun c hc' => isAsciiDigit_az_space (hc c hc')),
    subRunsAux_id (fun c hc' => scrubPred_az_space (hc c hc'))]
  rw [subRunsAux_fixed ?_ hch (by simp), hstrip]
  intro c hc' hsp
  rcases hc c hc' with h | h
  · rw [az_not_pySpace h] at hsp; cases hsp
  · exact h

/-- Normalization is idempotent at the list level. -/
theorem normalizeList_idem (l : List Char) :
    normalizeList (normalizeList l) = normalizeList l :=
  normalizeList_fixed (normalizeList_canonical l)

theorem data_mk (l : List Char) : (String.mk l).data = l := rfl

/-- Normalization is idempotent (string level). -/
theorem normalize_text_idem (x : String) :
    normalize_text (normalize_text x) = normalize_text x := by
  unfold normalize_text
  rw [data_mk]
  exact congrArg String.mk (normalizeList_idem x.data)

/-! ### Helper lemmas about the classifier loop -/

/-- The classifier loop returns the first active matching rule. -/
theorem classifyLoop_eq_firstMatch (rx : String → String → Bool) (mk : String) :
    ∀ rules, classifyLoop rx mk rules =
      match firstMatch rx mk rules with
      | some r => (r.categoria, r.subcategoria, "regex_config")
      | none => ("Não classificado", "", "nao_classificado") := by
  intro rules
  induction rules with
  | nil => rfl
  | cons r rs ih =>
    by_cases h : (r.ativo && Matcher.search rx r.pattern mk) = true
    · simp [classifyLoop, firstMatch, List.find?_cons, h]
    · rw [Bool.not_eq_true] at h
      simp only [classifyLoop, h, Bool.false_eq_true, if_false, firstMatch,
        List.find?_cons, ih]

/-- Removing a rule that cannot fire does not change the loop's result. -/
theorem classifyLoop_skip {rx : String → String → Bool} {mk : String}
    {r : Rule} (pre post : List Rule)
    (h : (r.ativo && Matcher.search rx r.pattern mk) = false) :
    classifyLoop rx mk (pre ++ r :: post) = classifyLoop rx mk (pre ++ post) := by
  induction pre with
  | nil => simp [classifyLoop, h]
  | cons q qs ih =>
    by_cases hq : (q.ativo && Matcher.search rx q.pattern mk) = true
    · simp [classifyLoop, hq]
    · rw [Bool.not_eq_true] at hq
      simp [classifyLoop, hq, ih]

/-- If no active rule matches, the loop falls through to the unclassified
triple. -/
theorem classifyLoop_none {rx : String → String → Bool} {mk : String}
    {rules : List Rule}
    (h : ∀ r ∈ rules, (r.ativo && Matcher.search rx r.pattern mk) = false) :
    classifyLoop rx mk rules = ("Não classificado", "", "nao_classificado") := by
  induction rules with
  | nil => rfl
  | cons r rs ih =>
    have hr := h r (List.mem_cons_self _ _)
    simp only [classifyLoop, hr, Bool.false_eq_true, if_false]
    exact ih fun q hq => h q (List.mem_cons_of_mem _ hq)

/-- The method component of the loop's result is one of the two tags. -/
theorem classifyLoop_method (rx : String → String → Bool) (mk : String) :
    ∀ rules, (classifyLoop rx mk rules).2.2 = "regex_config" ∨
      (classifyLoop rx mk rules).2.2 = "nao_classificado" := by
  intro rules
  induction rules with
  | nil => exact Or.inr rfl
  | cons r rs ih =>
    by_cases h : (r.ativo && Matcher.search rx r.pattern mk) = true
    · simp [classifyLoop, h]
    · rw [Bool.not_eq_true] at h
      simpa [classifyLoop, h] using ih

/-! ### Helper lemmas about the rule sort -/

/-- Inserting a rule into a list only adds it in front of rules with a
strictly earlier sort key, so the sublist of rules with any fixed key is
extended in front when the key matches and unchanged otherwise. -/
theorem filter_orderedInsert (x : Rule) (c : Int × Nat) :
    ∀ l : List Rule,
      (List.orderedInsert ruleLE x l).filter (fun r => decide (ruleKey r = c)) =
      if ruleKey x = c then
        x :: l.filter (fun r => decide (ruleKey r = c))
      else l.filter (fun r => decide (ruleKey r = c)) := by
  intro l
  induction l with
  | nil =>
    by_cases hx : ruleKey x = c <;> simp [List.orderedInsert, hx]
  | cons b bs ih =>
    by_cases hle : ruleLE x b
    · rw [List.orderedInsert, if_pos hle]
      by_cases hx : ruleKey x = c <;> simp [List.filter_cons, hx]
    · rw [List.orderedInsert, if_neg hle]
      by_cases hx : ruleKey x = c
      · have hb : ¬ ruleKey b = c := by
          intro hb
          apply hle
          have hkey : ruleKey x = ruleKey b := hx.trans hb.symm
          have h12 : x.prioridade = b.prioridade ∧
              x.pattern_raw.length = b.pattern_raw.length := by
            simpa [ruleKey, Prod.ext_iff] using hkey
          exact Or.inr ⟨h12.1, le_of_eq h12.2.symm⟩
        simp [List.filter_cons, hb, hx, ih]
      · by_cases hb : ruleKey b = c <;> simp [List.filter_cons, hb, hx, ih]

/-- Stability of the rule sort: the rules with any fixed sort key appear in
the sorted output in the same relative order as in the input. -/
theorem filter_insertionSort (c : Int × Nat) :
    ∀ l : List Rule,
      (List.insertionSort ruleLE l).filter (fun r => decide (ruleKey r = c)) =
      l.filter (fun r => decide (ruleKey r = c)) := by
  intro l
  induction l with
  | nil => rfl
  | cons x xs ih =>
    rw [List.insertionSort, filter_orderedInsert]
    by_cases hx : ruleKey x = c <;> simp [List.filter_cons, hx, ih]

/-! ### Literal matching: executable search vs. the spec's characterization -/

/-- The boolean search of the compiled literal regex succeeds exactly when
the literal occurs at a whitespace/string-edge word boundary. -/
theorem litSearch_iff {lit key : List Char} :
    litSearch lit key = true ↔ wordBoundaryOccurs lit key := by
  unfold litSearch wordBoundaryOccurs
  rw [List.any_eq_true]
  constructor
  · rintro ⟨i, hi, hmatch⟩
    rw [List.mem_range] at hi
    unfold litMatchAt caselessEq at hmatch
    simp only [Bool.and_eq_true, Bool.or_eq_true, beq_iff_eq] at hmatch
    obtain ⟨⟨hsl, hpre⟩, hpost⟩ := hmatch
    have hlen : i + lit.length ≤ key.length := by
      have hlg := congrArg List.length hsl
      simp only [List.length_map, List.length_take, List.length_drop] at hlg
      omega
    refine ⟨i, hlen, hsl, ?_, ?_⟩
    · rcases hpre with h | h
      · exact Or.inl (by simpa using h)
      · exact Or.inr h
    · rcases hpost with h | h
      · have h' : key.length = i + lit.length := by simpa using h
        exact Or.inl h'.symm
      · exact Or.inr h
  · rintro ⟨i, hlen, hsl, hpre, hpost⟩
    refine ⟨i, List.mem_range.mpr (by omega), ?_⟩
    unfold litMatchAt caselessEq
    simp only [Bool.and_eq_true, Bool.or_eq_true, beq_iff_eq]
    refine ⟨⟨hsl, ?_⟩, ?_⟩
    · rcases hpre with h | h
      · exact Or.inl (by simpa using h)
      · exact Or.inr h
    · rcases hpost with h | h
      · exact Or.inl (by simpa using h.symm)
      · exact Or.inr h

/-! ### Shape lemmas for `_compile_rule` and `compile_config` -/

/-- A blank pattern compiles to the dead matcher. -/
theorem _compile_rule_blank {p : String} (h : pyStrip p = "") :
    _compile_rule p = Matcher.dead := by
  unfold _compile_rule
  simp [h]

/-- A non-blank pattern without the `re:` prefix compiles to the
whole-word literal matcher on its stripped, lowercased text. -/
theorem _compile_rule_literal {p : String} (h1 : pyStrip p ≠ "")
    (h2 : startsWithRe (pyStrip p) = false) :
    _compile_rule p = Matcher.literal (pyLower (pyStrip p)) := by
  unfold _compile_rule
  rw [if_neg h1, if_neg (by simp [h2])]

/-- The dead matcher never matches. -/
theorem search_dead (rx : String → String → Bool) (key : String) :
    Matcher.search rx Matcher.dead key = false := rfl

/-- Shape of a successful `compile_config`: either the table was empty, or
every row was compiled and the result was stable-sorted by
`(prioridade, -len(pattern_raw))`. -/
theorem compile_config_ok {t : ConfigTable} {rules : List Rule}
    (h : compile_config t = .ok rules) :
    (t.rows = [] ∧ rules = []) ∨
      rules = List.insertionSort ruleLE (t.rows.map (buildRule t.columns)) := by
  unfold compile_config at h
  by_cases he : t.rows.isEmpty
  · rw [if_pos he] at h
    exact Or.inl ⟨List.isEmpty_iff.mp he, (Except.ok.inj h).symm⟩
  · rw [if_neg he] at h
    cases hf : requiredCols.find? (fun c => !(t.columns.contains c)) with
    | none =>
      rw [hf] at h
      exact Or.inr (Except.ok.inj h).symm
    | some c => rw [hf] at h; cases h

/-- A successful `compile_config` output is sorted by ascending priority
with ties by descending raw-pattern length. -/
theorem compile_config_sorted {t : ConfigTable} {rules : List Rule}
    (h : compile_config t = .ok rules) : List.Sorted ruleLE rules := by
  rcases compile_config_ok h with ⟨_, rfl⟩ | rfl
  · exact List.sorted_nil
  · exact List.sorted_insertionSort ruleLE _

/-! ### Witness data -/

/-- A concrete configuration: row order 10/5/10 with pattern lengths
1/2/3, exercising both the priority sort and the length tie-break. -/
def tC2 : ConfigTable :=
  ⟨["pattern", "categoria", "subcategoria", "prioridade"],
   [[("pattern", "a"), ("categoria", "C1"), ("subcategoria", "S1"), ("prioridade", "10")],
    [("pattern", "bb"), ("categoria", "C2"), ("subcategoria", "S2"), ("prioridade", "5")],
    [("pattern", "ccc"), ("categoria", "C3"), ("subcategoria", "S3"), ("prioridade", "10")]]⟩

/-- The compiled form of `tC2`: priority 5 first, then the priority-10
rules with the longer raw pattern first. -/
def rulesC2 : List Rule :=
  [⟨"bb", .literal "bb", "C2", "S2", 5, true⟩,
   ⟨"ccc", .literal "ccc", "C3", "S3", 10, true⟩,
   ⟨"a", .literal "a", "C1", "S1", 10, true⟩]

/-- A concrete configuration with two rows tying on both priority and
raw-pattern length. -/
def tC9 : ConfigTable :=
  ⟨["pattern", "categoria", "subcategoria"],
   [[("pattern", "x"), ("categoria", "A"), ("subcategoria", "a")],
    [("pattern", "y"), ("categoria", "B"), ("subcategoria", "b")]]⟩

/-- The compiled form of `tC9`: the tie keeps configuration row order. -/
def rulesC9 : List Rule :=
  [⟨"x", .literal "x", "A", "a", 100, true⟩,
   ⟨"y", .literal "y", "B", "b", 100, true⟩]

/-! ### The claims -/

/-- C1 (counterexample): the code's unclassified triple is
`("Não classificado", "", "nao_classificado")`, not
`("Unclassified", "", "unclassified")`, and its method tag is neither
`"unclassified"` nor `"regex_config"`. -/
theorem C1_counterexample :
    classify_merchant_key rxNone "" [] =
      ("Não classificado", "", "nao_classificado") ∧
    classify_merchant_key rxNone "" [] ≠ ("Unclassified", "", "unclassified") ∧
    (classify_merchant_key rxNone "" []).2.2 ≠ "unclassified" ∧
    (classify_merchant_key rxNone "" []).2.2 ≠ "regex_config" := by
  refine ⟨rfl, by decide, by decide, by decide⟩

/-- C1 (amended): for every rule list, `classify_merchant_key` returns the
triple `("Não classificado", "", "nao_classificado")` both when the
merchant key is empty after normalization (immediately — the result does
not depend on the rules) and when no active rule's matcher succeeds;
accordingly the method tag of every classification result is one of
`"regex_config"` or `"nao_classificado"`. -/
theorem C1_unclassified_result :
    ∀ (rx : String → String → Bool) (rules rules' : List Rule) (mk : String),
      (normalize_text mk = "" →
        classify_merchant_key rx mk rules =
          ("Não classificado", "", "nao_classificado") ∧
        classify_merchant_key rx mk rules = classify_merchant_key rx mk rules') ∧
      ((∀ r ∈ rules, r.ativo = true →
          Matcher.search rx r.pattern (normalize_text mk) = false) →
        classify_merchant_key rx mk rules =
          ("Não classificado", "", "nao_classificado")) ∧
      ((classify_merchant_key rx mk rules).2.2 = "regex_config" ∨
        (classify_merchant_key rx mk rules).2.2 = "nao_classificado") := by
  intro rx rules rules' mk
  unfold classify_merchant_key
  by_cases hmk : normalize_text mk = ""
  · rw [if_pos hmk]
    exact ⟨fun _ => ⟨rfl, by rw [if_pos hmk]⟩, fun _ => rfl, Or.inr rfl⟩
  · rw [if_neg hmk]
    refine ⟨fun h => absurd h hmk, fun hno => ?_, classifyLoop_method rx _ rules⟩
    refine classifyLoop_none fun r hr => ?_
    cases ha : r.ativo
    · simp [ha]
    · simp [ha, hno r hr ha]

/-- Witness for C1 at a concrete input: the empty key with a nonempty rule
list classifies to the unclassified triple. -/
theorem C1_unclassified_result_witness :
    classify_merchant_key rxNone ""
        [⟨"rest", _compile_rule "rest", "R", "R", 10, true⟩] =
      ("Não classificado", "", "nao_classificado") :=
  ((C1_unclassified_result rxNone
    [⟨"rest", _compile_rule "rest", "R", "R", 10, true⟩] [] "").1 (by decide)).1

/-- C2: compiled rules are sorted ascending by priority with ties by
descending raw-pattern length, whatever the configuration row order, and
the classifier returns the first active match in that list order. -/
theorem C2_priority_order :
    ∀ (t : ConfigTable) (rules : List Rule) (rx : String → String → Bool)
      (mk : String),
      compile_config t = .ok rules →
      List.Sorted ruleLE rules ∧
      (normalize_text mk ≠ "" →
        classify_merchant_key rx mk rules =
          match firstMatch rx (normalize_text mk) rules with
          | some r => (r.categoria, r.subcategoria, "regex_config")
          | none => ("Não classificado", "", "nao_classificado")) := by
  intro t rules rx mk h
  refine ⟨compile_config_sorted h, fun hne => ?_⟩
  unfold classify_merchant_key
  rw [if_neg hne]
  exact classifyLoop_eq_firstMatch rx _ rules

/-- Witness for C2: the concrete table `tC2` (row priorities 10/5/10)
compiles to `rulesC2` (5 first, then the longer priority-10 pattern), which
is sorted, and classification is the first match. -/
theorem C2_priority_order_witness :
    List.Sorted ruleLE rulesC2 ∧
    classify_merchant_key rxNone "ccc" rulesC2 =
      match firstMatch rxNone (normalize_text "ccc") rulesC2 with
      | some r => (r.categoria, r.subcategoria, "regex_config")
      | none => ("Não classificado", "", "nao_classificado") :=
  ⟨(C2_priority_order tC2 rulesC2 rxNone "ccc" rfl).1,
   (C2_priority_order tC2 rulesC2 rxNone "ccc" rfl).2 (by decide)⟩

/-- C3: a literal (non-`re:`) pattern matches a key exactly when its
stripped lowercased text occurs in the key immediately preceded by
start-of-string or whitespace and immediately followed by whitespace or
end-of-string; concretely, `"rest"` does not match
`"bar restaurante praia"` but does match `"rest praia ltda"`. -/
theorem C3_literal_word_boundary :
    (∀ (rx : String → String → Bool) (p key : String),
      pyStrip p ≠ "" → startsWithRe (pyStrip p) = false →
      (Matcher.search rx (_compile_rule p) key = true ↔
        wordBoundaryOccurs (pyLower (pyStrip p)).data key.data)) ∧
    (∀ rx, Matcher.search rx (_compile_rule "rest") "bar restaurante praia" = false) ∧
    (∀ rx, Matcher.search rx (_compile_rule "rest") "rest praia ltda" = true) := by
  have hc : _compile_rule "rest" = Matcher.literal "rest" := by decide
  refine ⟨?_, ?_, ?_⟩
  · intro rx p key h1 h2
    rw [_compile_rule_literal h1 h2]
    exact litSearch_iff
  · intro rx
    rw [hc]
    show litSearch "rest".data "bar restaurante praia".data = false
    decide
  · intro rx
    rw [hc]
    show litSearch "rest".data "rest praia ltda".data = true
    decide

/-- Witness for C3 at a concrete input: the word-boundary characterization
instantiated at pattern `"rest"` and key `"rest praia ltda"`. -/
theorem C3_literal_word_boundary_witness :
    Matcher.search rxNone (_compile_rule "rest") "rest praia ltda" = true ↔
      wordBoundaryOccurs (pyLower (pyStrip "rest")).data "rest praia ltda".data :=
  C3_literal_word_boundary.1 rxNone "rest" "rest praia ltda" (by decide) (by decide)

/-- C4 (counterexample): a digit run does NOT vanish without trace — it
leaves a single separating space: `normalize_text "abc123def"` is
`"abc def"`, not `"abcdef"`. -/
theorem C4_counterexample :
    normalize_text "abc123def" = "abc def" ∧
    normalize_text "abc123def" ≠ "abcdef" := by
  exact ⟨by decide, by decide⟩

/-- C4 (amended): normalization removes every digit character from the
output (no output character is a digit), but each maximal digit run is
replaced by a single space rather than deleted, so
`normalize_text "abc123def" = "abc def"`. -/
theorem C4_digits_removed :
    (∀ (x : String) (c : Char), c ∈ (normalize_text x).data →
      isAsciiDigit c = false) ∧
    normalize_text "abc123def" = "abc def" := by
  constructor
  · intro x c hc
    rcases (normalizeList_canonical x.data).1 c hc with h | rfl
    · exact isAsciiDigit_az_space (Or.inl h)
    · decide
  · decide

/-- Witness for C4 at a concrete input: the letter `a` of a normalized
output is not a digit. -/
theorem C4_digits_removed_witness : isAsciiDigit 'a' = false :=
  C4_digits_removed.1 "abc" 'a' (by decide)

/-- C5: for a non-empty configuration table, `compile_config` raises a
`ConfigError` when one of the columns `pattern`, `categoria`,
`subcategoria` is absent — a structural error raised before any rule is
built: the error is the same whatever the row contents — while an empty
table raises nothing and yields zero rules.  (The converse — that a table
with all required columns compiles successfully — is not claimed and is
not true of the program: an invalid `re:` pattern raises inside
`_compile_rule`, an error path the embedding does not model.) -/
theorem C5_required_columns :
    ∀ t : ConfigTable,
      (t.rows ≠ [] →
        ("pattern" ∉ t.columns ∨ "categoria" ∉ t.columns ∨
            "subcategoria" ∉ t.columns) →
        ∃ e, compile_config t = .error e ∧
          ∀ rows' : List ConfigRow, rows' ≠ [] →
            compile_config ⟨t.columns, rows'⟩ = .error e) ∧
      (t.rows = [] → compile_config t = .ok []) := by
  intro t
  have hreq : requiredCols = ["pattern", "categoria", "subcategoria"] := rfl
  constructor
  · intro hne hmiss
    cases hf : requiredCols.find? (fun c => !(t.columns.contains c)) with
    | none =>
      exfalso
      have hall := List.find?_eq_none.mp hf
      rcases hmiss with h | h | h
      · exact h (by simpa using hall "pattern" (by simp [hreq]))
      · exact h (by simpa using hall "categoria" (by simp [hreq]))
      · exact h (by simpa using hall "subcategoria" (by simp [hreq]))
    | some c =>
      refine ⟨"Config precisa ter coluna '" ++ c ++ "'", ?_, ?_⟩
      · unfold compile_config
        rw [if_neg (by simp [List.isEmpty_iff, hne]), hf]
      · intro rows' hne'
        unfold compile_config
        rw [if_neg (by simp [List.isEmpty_iff, hne'])]
        dsimp only
        rw [hf]
  · intro he
    unfold compile_config
    rw [if_pos (by simp [he])]

/-- Witness for C5 at concrete inputs: a one-row table lacking
`categoria`/`subcategoria` errors, with the same error for another row
list, and the empty table compiles to no rules. -/
theorem C5_required_columns_witness :
    (∃ e, compile_config ⟨["pattern"], [[("pattern", "x")]]⟩ = .error e ∧
      ∀ rows' : List ConfigRow, rows' ≠ [] →
        compile_config ⟨["pattern"], rows'⟩ = .error e) ∧
    compile_config ⟨[], []⟩ = .ok [] :=
  ⟨(C5_required_columns ⟨["pattern"], [[("pattern", "x")]]⟩).1 (by decide)
      (Or.inr (Or.inl (by decide))),
   (C5_required_columns ⟨[], []⟩).2 rfl⟩

/-- C6: an inactive rule never contributes to the result — deleting it
from any position of the rule list leaves every classification
unchanged. -/
theorem C6_inactive_never_matches :
    ∀ (rx : String → String → Bool) (mk : String) (pre post : List Rule)
      (r : Rule), r.ativo = false →
      classify_merchant_key rx mk (pre ++ r :: post) =
        classify_merchant_key rx mk (pre ++ post) := by
  intro rx mk pre post r h
  unfold classify_merchant_key
  by_cases hmk : normalize_text mk = ""
  · rw [if_pos hmk, if_pos hmk]
  · rw [if_neg hmk, if_neg hmk]
    exact classifyLoop_skip pre post (by simp [h])

/-- Witness for C6 at a concrete input: an inactive rule whose literal
would match the key is ignored. -/
theorem C6_inactive_never_matches_witness :
    classify_merchant_key rxNone "rest praia"
        ([] ++ ⟨"rest", _compile_rule "rest", "Restaurante", "R", 10, false⟩ :: []) =
      classify_merchant_key rxNone "rest praia" ([] ++ []) :=
  C6_inactive_never_matches rxNone "rest praia" [] []
    ⟨"rest", _compile_rule "rest", "Restaurante", "R", 10, false⟩ rfl

/-- C7: a pattern that is empty or blank after trimming compiles (without
raising — `_compile_rule` is total) to the dead matcher, which fails on
every key, so such a rule never determines a classification result. -/
theorem C7_blank_pattern_dead :
    ∀ p : String, pyStrip p = "" →
      _compile_rule p = Matcher.dead ∧
      (∀ (rx : String → String → Bool) (key : String),
        Matcher.search rx (_compile_rule p) key = false) ∧
      (∀ (rx : String → String → Bool) (mk cat sub : String) (prio : Int)
        (act : Bool) (pre post : List Rule),
        classify_merchant_key rx mk
          (pre ++ ⟨p, _compile_rule p, cat, sub, prio, act⟩ :: post) =
        classify_merchant_key rx mk (pre ++ post)) := by
  intro p hp
  have hd := _compile_rule_blank hp
  refine ⟨hd, fun rx key => by rw [hd]; rfl, ?_⟩
  intro rx mk cat sub prio act pre post
  unfold classify_merchant_key
  by_cases hmk : normalize_text mk = ""
  · rw [if_pos hmk, if_pos hmk]
  · rw [if_neg hmk, if_neg hmk]
    refine classifyLoop_skip pre post ?_
    show (act && Matcher.search rx (_compile_rule p) (normalize_text mk)) = false
    rw [hd]
    simp [Matcher.search]

/-- Witness for C7 at a concrete input: the blank pattern `"  "` compiles
to the dead matcher and fails on the key `"rest"`. -/
theorem C7_blank_pattern_dead_witness :
    _compile_rule "  " = Matcher.dead ∧
    Matcher.search rxNone (_compile_rule "  ") "rest" = false :=
  ⟨(C7_blank_pattern_dead "  " (by decide)).1,
   (C7_blank_pattern_dead "  " (by decide)).2.1 rxNone "rest"⟩

/-- C8: normalization is idempotent. -/
theorem C8_normalize_idempotent :
    ∀ x : String, normalize_text (normalize_text x) = normalize_text x :=
  normalize_text_idem

/-- C9: the rule sort is stable — among rules tying on both priority and
raw-pattern length, the compiled order is the configuration row order (for
every sort key, filtering the compiled list and the in-row-order built
list give the same sublist), and the compiled order is a function of the
table. -/
theorem C9_stable_tie_order :
    ∀ (t : ConfigTable) (rules : List Rule) (c : Int × Nat),
      compile_config t = .ok rules →
      rules.filter (fun r => decide (ruleKey r = c)) =
        (t.rows.map (buildRule t.columns)).filter
          (fun r => decide (ruleKey r = c)) := by
  intro t rules c h
  rcases compile_config_ok h with ⟨hrows, rfl⟩ | rfl
  · rw [hrows]; rfl
  · exact filter_insertionSort c _

/-- Witness for C9 at a concrete input: the two tying rules of `tC9` keep
their row order in `rulesC9`. -/
theorem C9_stable_tie_order_witness :
    rulesC9.filter (fun r => decide (ruleKey r = ((100 : Int), 1))) =
      (tC9.rows.map (buildRule tC9.columns)).filter
        (fun r => decide (ruleKey r = ((100 : Int), 1))) :=
  C9_stable_tie_order tC9 rulesC9 ((100 : Int), 1) rfl

/-- C10: the classifier normalizes its merchant-key argument itself, so
passing an un-normalized key gives the same result as passing the
normalized one. -/
theorem C10_classify_normalizes :
    ∀ (rx : String → String → Bool) (k : String) (rules : List Rule),
      classify_merchant_key rx k rules =
        classify_merchant_key rx (normalize_text k) rules := by
  intro rx k rules
  unfold classify_merchant_key
  rw [normalize_text_idem]
